import Mathlib

/-!
Verification of the rss2masto feed-to-post pipeline.

This file gives a shallow embedding of the Go sources of the repository
(`rssmonitor` part: `Start`, `getFeed`, `makeHashtags`, `createRequest`
commit logic; `rssconfig.go`: `setDefaultValues`) and settles the frozen
claims about it.

Modelling conventions:
- Go `string` values are modelled as `List Char`; `len` is list length
  (the inputs of every claim are ASCII, where Go byte length and byte
  indexing coincide with character length and indexing).
- Go `int64` arithmetic wraps; `wrap64` applies two's-complement
  wrap-around where the source performs arithmetic.
- Go slice expressions `s[:n]` and index expressions `s[n]` panic when
  out of range; they are modelled by `goSlice` / `goIndex` returning
  `Option`, and a function that can panic returns `Option` (`none` =
  runtime panic).
- External collaborators (xxhash, bluemonday sanitizer, html unescape,
  compiled regexps, url hostname parsing, the HTTP transport and the
  redis cache) are parameters: the embedding is parametric in a hash
  function, sanitize/unescape functions, an optional regexp-extraction
  function, an optional replace function, a hostname parser, and the
  per-item HTTP response. The cache is modelled by an availability flag
  plus the set of keys currently stored.
-/

namespace Rss2Masto

/-- Two's-complement wrap-around of Go `int64` arithmetic results. -/
def wrap64 (x : Int) : Int :=
  (x + 9223372036854775808) % 18446744073709551616 - 9223372036854775808

/-- Go `s[:n]` on a string: `some` of the first `n` bytes when
`0 ≤ n ≤ len(s)`, `none` (panic) otherwise. -/
def goSlice (s : List Char) (n : Int) : Option (List Char) :=
  if 0 ≤ n ∧ n ≤ s.length then some (s.take n.toNat) else none

/-- Go `s[n]` on a string: the byte at index `n` when in range,
`none` (panic) otherwise. -/
def goIndex (s : List Char) (n : Int) : Option Char :=
  if 0 ≤ n ∧ n < s.length then s.get? n.toNat else none

/-- Go `strings.Contains(s, pat)`: `pat` occurs as a substring of `s`. -/
def hasSubstr (s pat : List Char) : Bool :=
  match s with
  | [] => pat.isEmpty
  | _ :: tail => pat.isPrefixOf s || hasSubstr tail pat

/-- Go `strings.ContainsAny(s, chars)`. -/
def containsAny (s chars : List Char) : Bool :=
  s.any fun c => chars.contains c

/-- Go `strings.LastIndexAny(s, chars)`: byte index of the last
occurrence in `s` of any character of `chars`, `-1` when absent. -/
def lastIndexAny : List Char → List Char → Int
  | [], _ => -1
  | c :: cs, chars =>
    let r := lastIndexAny cs chars
    if 0 ≤ r then r + 1
    else if chars.contains c then 0 else -1

/-- ASCII whitespace recognised by Go `strings.TrimSpace` (the claims
only involve ASCII input, where `unicode.IsSpace` is this set). -/
def isGoSpace (c : Char) : Bool :=
  c = ' ' || c = '\t' || c = '\n' || c = '\x0d' || c = Char.ofNat 11 || c = Char.ofNat 12

/-- Go `strings.TrimSpace` on ASCII input. -/
def trimSpace (s : List Char) : List Char :=
  ((s.dropWhile isGoSpace).reverse.dropWhile isGoSpace).reverse

/-- ASCII lower-case letter to upper case. -/
def asciiUpper (c : Char) : Char :=
  if 'a' ≤ c ∧ c ≤ 'z' then Char.ofNat (c.toNat - 32) else c

/-- ASCII letter test. -/
def isAsciiAlpha (c : Char) : Bool :=
  ('a' ≤ c && c ≤ 'z') || ('A' ≤ c && c ≤ 'Z')

/-- Helper for `casesTitleNoLower`: `atStart` is true when the previous
byte was not a letter, i.e. the next letter starts a word. -/
def titleCaseAux : Bool → List Char → List Char
  | _, [] => []
  | atStart, c :: cs =>
    if isAsciiAlpha c then
      (if atStart then asciiUpper c else c) :: titleCaseAux false cs
    else
      c :: titleCaseAux true cs

/-- The `casesTitle.String` conversion of the source
(`cases.Title(lang, cases.NoLower)`): the first letter of every word is
upper-cased, all other characters are left unchanged. Modelled for
ASCII input, where a word is a maximal run of letters. -/
def casesTitleNoLower (s : List Char) : List Char :=
  titleCaseAux true s

/-- The package-level `replacer = strings.NewReplacer(" - ", " ", " i ", ": ")`
of the source, on ASCII input: a single left-to-right pass replacing
non-overlapping occurrences. -/
def goReplacer : List Char → List Char
  | [] => []
  | [c] => [c]
  | [c1, c2] => [c1, c2]
  | c1 :: c2 :: c3 :: rest =>
    if c1 = ' ' ∧ c2 = '-' ∧ c3 = ' ' then ' ' :: goReplacer rest
    else if c1 = ' ' ∧ c2 = 'i' ∧ c3 = ' ' then ':' :: ' ' :: goReplacer rest
    else c1 :: goReplacer (c2 :: c3 :: rest)

/-- Go `strings.Split(s, ":")` helper carrying the reversed current
segment. -/
def splitColonAux (cur : List Char) : List Char → List (List Char)
  | [] => [cur.reverse]
  | c :: cs =>
    if c = ':' then cur.reverse :: splitColonAux [] cs
    else splitColonAux (c :: cur) cs

/-- Go `strings.Split(s, ":")`. -/
def splitColon (s : List Char) : List (List Char) :=
  splitColonAux [] s

/-! ## Hashtag derivation (`makeHashtags`) -/

/-- Processing of one category string inside the `makeHashtags` loop:
trim, apply `replacer`, title-case, drop spaces, split on `:`, keep the
segments free of `-`, `\`, `/` and `.` (in source order). -/
def tagSegments (tag : List Char) : List (List Char) :=
  let t := trimSpace tag
  let t := goReplacer t
  let t := casesTitleNoLower t
  let t := t.filter fun c => c ≠ ' '
  (splitColon t).filter fun s => ¬ containsAny s ['-', '\\', '/', '.']

/-- Embedding of `makeHashtags(item, f, re)`. `categories` is
`item.Categories` (`none` models a nil slice), `link` is `item.Link`,
`reTag` models the compiled `f.HashLink` regexp (`none` when the
pattern is empty or failed to compile; otherwise the function returns
the first capture group of the first match of `re.FindAllStringSubmatch`,
`none` when there is no match of the expected shape), and `pfx` is
`f.Prefix`. -/
def makeHashtags (categories : Option (List (List Char))) (link : List Char)
    (reTag : Option (List Char → Option (List Char))) (pfx : List Char) : List Char :=
  let aTags : List (List Char) :=
    match categories with
    | some cats => (cats.map tagSegments).flatten
    | none =>
      match reTag with
      | some ext =>
        match ext link with
        | some tag => if ¬ hasSubstr tag ['-'] then [tag] else []
        | none => []
      | none => []
  if aTags.length > 0 then
    let aTags :=
      if pfx ≠ [] then
        aTags ++ (aTags.filter fun t => ¬ hasSubstr t pfx).map fun t => pfx ++ casesTitleNoLower t
      else aTags
    '#' :: List.intercalate (' ' :: ['#']) aTags
  else []

/-! ## Content transformation: truncation and composition
(`getFeed`, lines 139-175) -/

/-- The truncation marker appended by the source (`" [...]"`). -/
def markerChars : List Char := " [...]".toList

/-- The boundary characters of `strings.LastIndexAny(description, " .,;!?")`. -/
def boundaryChars : List Char := " .,;!?".toList

/-- Embedding of the body-truncation block of `getFeed`:

```
if l+len(description) > fm.Instance.Limit {
    n := fm.Instance.Limit - l - 11
    description = description[:n]
    n = strings.LastIndexAny(description, " .,;!?")
    if n > 0 {
        description = description[:n+1]
        if description[n] == ' ' {
            description = description[:n]
        }
    }
    l = len(description)
    if description[l-2] == ' ' {
        description = description[:l-2]
    }
    description = description + " [...]"
}
```

`none` models a Go panic from an out-of-range slice or index. The block
is split into named steps: `truncStep2` is the `n > 0` backtrack to the
last boundary character, `truncStep3` is the final trailing-space check
and the appending of the marker. -/
def truncStep2 (d1 : List Char) : Option (List Char) :=
  let n2 := lastIndexAny d1 boundaryChars
  if n2 > 0 then
    match goSlice d1 (n2 + 1) with
    | none => none
    | some d2 =>
      match goIndex d2 n2 with
      | none => none
      | some c => if c = ' ' then goSlice d2 n2 else some d2
  else some d1

/-- Final truncation step: the `description[l-2]` check and the marker. -/
def truncStep3 (d3 : List Char) : Option (List Char) :=
  match goIndex d3 ((d3.length : Int) - 2) with
  | none => none
  | some c2 =>
    match (if c2 = ' ' then goSlice d3 ((d3.length : Int) - 2) else some d3) with
    | none => none
    | some d4 => some (d4 ++ markerChars)

/-- The whole body-truncation block (see the Go excerpt above). -/
def truncateDescription (limit l : Int) (desc : List Char) : Option (List Char) :=
  if l + (desc.length : Int) > limit then
    match goSlice desc (limit - l - 11) with
    | none => none
    | some d1 =>
      match truncStep2 d1 with
      | none => none
      | some d3 => truncStep3 d3
  else some desc

/-- Embedding of the `strings.Builder` composition of `getFeed`
(lines 162-175): title, blank line, body block when non-empty, hashtag
block when non-empty, link. -/
def composeStatus (title desc hashtags link : List Char) : List Char :=
  title ++ "\n\n".toList ++
    (if desc ≠ [] then desc ++ "\n\n".toList else []) ++
    (if hashtags ≠ [] then hashtags ++ "\n\n".toList else []) ++
    link

/-- Truncation followed by the optional `f.ReplaceFrom` substitution
(applied after truncation in the source, then re-trimmed) and the
composition of the status text. `reRep` models the compiled replacement
(`nil` when `f.ReplaceFrom` is empty). -/
def renderStatus (limit : Int) (title hashtags link desc : List Char)
    (reRep : Option (List Char → List Char)) : Option (List Char) :=
  match truncateDescription limit ((title.length : Int) + hashtags.length + link.length) desc with
  | none => none
  | some d =>
    let d := match reRep with
      | some rep => trimSpace (rep d)
      | none => d
    some (composeStatus title d hashtags link)

/-! ## The per-item processing loop of `getFeed` -/

/-- A fetched feed item (the `gofeed.Item` fields the pipeline reads).
`pubUnix` / `updUnix` are `PublishedParsed.Unix()` and
`UpdatedParsed.Unix()`; `categories = none` models a nil slice. -/
structure Item where
  guid : List Char
  title : List Char
  description : List Char
  content : List Char
  link : List Char
  categories : Option (List (List Char))
  pubUnix : Int
  updUnix : Int
deriving DecidableEq, Repr

/-- The per-feed environment of one `getFeed` call: everything the loop
reads but never writes. `hash` models `hashString` (xxhash),
`sanitize` the bluemonday strict policy, `unescape`
`html.UnescapeString`; `cacheAvailable` is `Cache() != nil`. -/
structure Env where
  nowUnix : Int
  feedType : List Char
  limit : Int
  cacheAvailable : Bool
  debugMode : Bool
  name : List Char
  pfx : List Char
  hash : List Char → List Char
  sanitize : List Char → List Char
  unescape : List Char → List Char
  reTag : Option (List Char → Option (List Char))
  reRep : Option (List Char → List Char)

/-- The mutable state the loop writes: the feed's `LastRun` and `Count`,
the monitor's `lastMonit`, and the set of keys stored in the cache
(meaningful only when the cache is available). -/
structure ProcState where
  lastRun : Int
  count : Int
  lastMonit : Int
  cacheKeys : List (List Char)
deriving DecidableEq, Repr

/-- Observable outcome of one loop iteration. `renderedOnly` is the
debug-mode path that renders but never posts; `publishFailed` covers a
request-creation error, a transport error and every non-200 status. -/
inductive ItemOutcome where
  | skipped
  | renderedOnly
  | published
  | publishFailed
deriving DecidableEq, Repr

/-- Effective timestamp of an item: `UpdatedParsed` for an atom feed,
`PublishedParsed` otherwise (used both by the sort and by the loop). -/
def effTime (feedType : List Char) (it : Item) : Int :=
  if feedType = "atom".toList then it.updUnix else it.pubUnix

/-- The effective timestamp capped at `now`
(`if pubUnixTime > now.Unix() { pubUnixTime = now.Unix() }`). -/
def cappedTime (env : Env) (it : Item) : Int :=
  if effTime env.feedType it > env.nowUnix then env.nowUnix
  else effTime env.feedType it

/-- The idempotency key `f.Name[:2] + ":" + hashString(item.GUID)`,
defined when the name slice is in range. -/
def idemKey (env : Env) (it : Item) : List Char :=
  env.name.take 2 ++ ':' :: env.hash it.guid

/-- Embedding of the body of the `resp.StatusCode == http.StatusOK`
branch of the publish closure (lines 212-224): the post counter is
incremented, the key is stored when the cache is available, `LastRun`
is advanced when below the item's capped timestamp, and the monitor's
`lastMonit` follows. (`SendTime` is wall-clock only and not modelled.) -/
def successCommit (env : Env) (t : Int) (key : List Char) (st : ProcState) : ProcState :=
  let lr := if st.lastRun < t then t else st.lastRun
  { lastRun := lr,
    count := wrap64 (st.count + 1),
    lastMonit := if lr > st.lastMonit then lr else st.lastMonit,
    cacheKeys := if env.cacheAvailable then key :: st.cacheKeys else st.cacheKeys }

/-- Embedding of the publish closure's response handling (lines
205-225): `code` is the HTTP outcome (`none` = transport error, `some c`
= status code `c`; `http.StatusOK` is 200). Only status 200 commits;
any other status, and a failed request, leaves the state untouched. -/
def publishCommit (env : Env) (t : Int) (key : List Char) (code : Option Int)
    (st : ProcState) : ProcState × ItemOutcome :=
  match code with
  | some c =>
    if c = 200 then (successCommit env t key st, ItemOutcome.published)
    else (st, ItemOutcome.publishFailed)
  | none => (st, ItemOutcome.publishFailed)

/-- Embedding of one iteration of the `getFeed` item loop
(lines 103-227). `post it` is the outcome of the HTTP POST for this
item (`none` = request/transport error, `some c` = status code `c`).
The result is `none` when the iteration panics (the `f.Name[:2]` slice
with a short name, or an out-of-range slice in the truncation). -/
def processItem (env : Env) (post : Item → Option Int) (st : ProcState)
    (it : Item) : Option (ProcState × ItemOutcome) :=
  let t0 := effTime env.feedType it
  if t0 < env.nowUnix - 43200 then some (st, ItemOutcome.skipped)
  else
    let t := if t0 > env.nowUnix then env.nowUnix else t0
    if t < st.lastRun then some (st, ItemOutcome.skipped)
    else if env.name.length < 2 then none
    else
      let key := idemKey env it
      if env.cacheAvailable ∧ key ∈ st.cacheKeys then some (st, ItemOutcome.skipped)
      else if ¬ env.cacheAvailable ∧ t ≤ st.lastRun then some (st, ItemOutcome.skipped)
      else
        let desc0 := if it.content ≠ [] then it.content else it.description
        let desc := env.unescape (trimSpace (env.sanitize desc0))
        let title := env.unescape it.title
        let hashtags := makeHashtags it.categories it.link env.reTag env.pfx
        match renderStatus env.limit title hashtags it.link desc env.reRep with
        | none => none
        | some _ =>
          if env.debugMode then some (st, ItemOutcome.renderedOnly)
          else some (publishCommit env t key (post it) st)

/-- Runs the loop over the already-ordered items, threading the state
and recording, per evaluated item, its effective timestamp and outcome.
A panic (`none`) aborts the whole cycle, as in Go. -/
def runItems (env : Env) (post : Item → Option Int) :
    ProcState → List Item → Option (ProcState × List (Int × ItemOutcome))
  | st, [] => some (st, [])
  | st, it :: rest =>
    match processItem env post st it with
    | none => none
    | some (st', out) =>
      match runItems env post st' rest with
      | none => none
      | some (stf, outs) => some (stf, (effTime env.feedType it, out) :: outs)

/-- Descending insertion w.r.t. the item key, modelling the result of
`sort.Slice` with a `>` comparator (`sort.Slice` is unstable, but for
pairwise-distinct keys the descending order is unique, and every claim
uses distinct timestamps). -/
def insertDesc (key : Item → Int) (x : Item) : List Item → List Item
  | [] => [x]
  | y :: ys => if key x > key y then x :: y :: ys else y :: insertDesc key x ys

/-- Sort by date descending (lines 80-89). -/
def sortDesc (key : Item → Int) : List Item → List Item
  | [] => []
  | x :: xs => insertDesc key x (sortDesc key xs)

/-- Embedding of one `getFeed` call after regexp compilation:
`fetched = none` models a parse error (the function returns, the state
is untouched); otherwise the items are sorted by date descending and
the loop walks them from the last index down, i.e. oldest first. -/
def getFeedRun (env : Env) (post : Item → Option Int)
    (fetched : Option (List Item)) (st : ProcState) :
    Option (ProcState × List (Int × ItemOutcome)) :=
  match fetched with
  | none => some (st, [])
  | some items => runItems env post st ((sortDesc (effTime env.feedType) items).reverse)

/-! ## Feed initialization (`setDefaultValues`) and the scheduler (`Start`) -/

/-- The yaml-visible feed fields `setDefaultValues` reads or writes. -/
structure FeedConfig where
  name : List Char
  feedUrl : List Char
  token : List Char
  visibility : List Char
  interval : Int
  lastRun : Int
deriving DecidableEq, Repr

/-- Membership in the `visibilityTypes` map. -/
def visibilityOk (v : List Char) : Bool :=
  v = "public".toList || v = "unlisted".toList || v = "private".toList

/-- The `feedNameReplacer` (`"\n" → "\\n"`, `"\r" → "\\r"`). -/
def sanitizeFeedName (s : List Char) : List Char :=
  s.flatMap fun c =>
    if c = '\n' then ['\\', 'n'] else if c = '\x0d' then ['\\', 'r'] else [c]

/-- Embedding of the body of `setDefaultValues` for one feed.
`lastMonit` is `fm.LastMonit()`; `hostname` models
`url.Parse(feed.FeedUrl)` followed by `u.Hostname()` (`none` = parse
error, in which case the name is left as is, expressed with
`Option.getD` over the unchanged name). -/
def setDefaultValues (lastMonit : Int) (hostname : List Char → Option (List Char))
    (f : FeedConfig) : FeedConfig :=
  let f1 := if f.lastRun = 0 then { f with lastRun := lastMonit } else f
  let f2 := if f1.interval = 0 then { f1 with interval := 10 } else f1
  let f3 := { f2 with lastRun := wrap64 (f2.lastRun + wrap64 (60 * f2.interval)) }
  let f4 := if visibilityOk f3.visibility then f3 else { f3 with visibility := "private".toList }
  let f5 :=
    if f4.name = [] then { f4 with name := (hostname f4.feedUrl).getD f4.name }
    else f4
  { f5 with name := sanitizeFeedName f5.name }

/-- Per-feed scheduler state (`Progress` and `Interval`). -/
structure SchedState where
  progress : Int
  interval : Int
deriving DecidableEq, Repr

/-- Embedding of the scheduler step inside `Start`:
`f.Progress.Add(1); if f.Progress.Load() >= f.Interval` then the
progress is reset to 0 and the feed is due. -/
def schedTick (s : SchedState) : SchedState × Bool :=
  let p := wrap64 (s.progress + 1)
  if p ≥ s.interval then ({ s with progress := 0 }, true) else ({ s with progress := p }, false)

/-- Embedding of the per-feed body of `Start`: a feed with an empty URL
or an empty token is skipped entirely; otherwise the scheduler ticks
and, when due, `getFeed` runs. -/
def startFeed (env : Env) (post : Item → Option Int) (fetched : Option (List Item))
    (feedUrl token : List Char) (sched : SchedState) (st : ProcState) :
    Option (SchedState × ProcState × List (Int × ItemOutcome)) :=
  if feedUrl ≠ [] ∧ token ≠ [] then
    let (sched', due) := schedTick sched
    if due then
      match getFeedRun env post fetched st with
      | none => none
      | some (st', tr) => some (sched', st', tr)
    else some (sched', st, [])
  else some (sched, st, [])

/-! ## Concrete fixtures used by witnesses and counterexamples -/

/-- A baseline environment: rss feed named "ab", character limit 500,
no cache, not in debug mode, no prefix, no patterns; the external hash,
sanitizer and unescaper are taken as the identity (their values are
irrelevant to the properties checked on these fixtures). -/
def envNoCache : Env :=
  { nowUnix := 1000000, feedType := "rss".toList, limit := 500,
    cacheAvailable := false, debugMode := false,
    name := "ab".toList, pfx := [],
    hash := id, sanitize := id, unescape := id,
    reTag := none, reRep := none }

/-- The baseline environment with an available cache. -/
def envCache : Env := { envNoCache with cacheAvailable := true }

/-- A minimal item published at time `t`. -/
def mkItem (t : Int) : Item :=
  { guid := "g1".toList, title := "t".toList, description := "d".toList,
    content := [], link := "l".toList, categories := none,
    pubUnix := t, updUnix := 0 }

/-- A baseline processing state with watermark 999000. -/
def stBase : ProcState :=
  { lastRun := 999000, count := 0, lastMonit := 998000, cacheKeys := [] }

/-- The baseline state with the key of the item published at 999500
already stored in the cache. -/
def stKeyed : ProcState :=
  { stBase with cacheKeys := [idemKey envCache (mkItem 999500)] }

/-- The state after a successful publish of the item at 999500 from
`stBase` without a cache. -/
def stSucc : ProcState :=
  { lastRun := 999500, count := 1, lastMonit := 999500, cacheKeys := [] }

/-- The baseline environment at wall-clock time `T`. -/
def env6 (T : Int) : Env := { envNoCache with nowUnix := T }

/-- The ordering fixture's initial state: watermark `T - 4`. -/
def st6 (T : Int) : ProcState :=
  { lastRun := T - 4, count := 0, lastMonit := T - 4, cacheKeys := [] }

/-- The ordering fixture's final state after three successful posts:
watermark `T - 1`. -/
def st6c (T : Int) : ProcState :=
  { lastRun := T - 1, count := 3, lastMonit := T - 1, cacheKeys := [] }

/-- Title of the truncation-boundary fixture (5 characters). -/
def title4 : List Char := "Hello".toList

/-- Link of the truncation-boundary fixture (20 characters). -/
def link4 : List Char := List.replicate 20 'a'

/-- Body of the truncation-boundary fixture (100 characters with word
boundaries). -/
def desc4 : List Char := (List.replicate 10 "aaaa aaaa ".toList).flatten

/-- The status text rendered from the truncation-boundary fixture. -/
def status4 : List Char := "Hello\n\naaaa aaaa [...]\n\n".toList ++ List.replicate 20 'a'

/-- A feed configured with a negative polling interval. -/
def fcNeg : FeedConfig :=
  { name := "n".toList, feedUrl := "u".toList, token := "k".toList,
    visibility := "public".toList, interval := -5, lastRun := 1000 }

/-- A feed with an unset polling interval. -/
def fcZero : FeedConfig := { fcNeg with interval := 0 }

/-- A feed with the default positive interval already configured. -/
def fcPos : FeedConfig := { fcNeg with interval := 10 }

/-- A feed with an empty name and a hostless URL. -/
def fcNoName : FeedConfig := { fcNeg with name := [] }

/-- The baseline environment with an empty feed name (as produced by
initialization from a hostless feed URL). -/
def envShort : Env := { envNoCache with name := [] }

/-- A scheduler fixture one tick away from being due. -/
def sched7 : SchedState := { progress := 0, interval := 1 }

/-! ## Helper lemmas -/

/-- `wrap64` is the identity on values representable in `int64`. -/
theorem wrap64_eq_of_bounds (x : Int) (h1 : -9223372036854775808 ≤ x)
    (h2 : x < 9223372036854775808) : wrap64 x = x := by
  unfold wrap64
  omega

/-- Characterization of a successful Go slice. -/
theorem goSlice_eq_some {s r : List Char} {n : Int} :
    goSlice s n = some r ↔ 0 ≤ n ∧ n ≤ s.length ∧ r = s.take n.toNat := by
  unfold goSlice
  split_ifs with h
  · simp only [Option.some.injEq]
    constructor
    · rintro rfl; exact ⟨h.1, h.2, rfl⟩
    · rintro ⟨-, -, rfl⟩; rfl
  · simp only [reduceCtorEq, false_iff]
    rintro ⟨h1, h2, -⟩; exact h ⟨h1, h2⟩

/-- A successful Go slice never lengthens the string. -/
theorem goSlice_length_le {s r : List Char} {n : Int}
    (h : goSlice s n = some r) : r.length ≤ s.length ∧ (r.length : Int) ≤ n := by
  obtain ⟨h0, hn, rfl⟩ := goSlice_eq_some.mp h
  have := List.length_take n.toNat s
  constructor <;> omega

/-- Both watermark tiers (`pubUnixTime < f.LastRun` before the key is
built, and the cache-absent `pubUnixTime <= f.LastRun`) fire before the
item is transformed: a capped timestamp strictly below the watermark is
always skipped, whatever the cache says. -/
theorem processItem_skip_of_capped_lt (env : Env) (post : Item → Option Int)
    (st : ProcState) (it : Item) (h : cappedTime env it < st.lastRun) :
    processItem env post st it = some (st, ItemOutcome.skipped) := by
  unfold cappedTime at h
  unfold processItem
  by_cases h0 : effTime env.feedType it < env.nowUnix - 43200
  · simp [h0]
  · simp [h0, h]

/-- The publish commit never decreases the feed watermark. -/
theorem publishCommit_lastRun_mono (env : Env) (t : Int) (key : List Char)
    (code : Option Int) (st : ProcState) :
    st.lastRun ≤ (publishCommit env t key code st).1.lastRun := by
  unfold publishCommit successCommit
  cases code with
  | none => exact le_refl _
  | some c =>
    dsimp only
    split_ifs <;> first | exact le_refl _ | (dsimp only; omega)

/-- The publish commit never reports a skip or a debug render. -/
theorem publishCommit_snd_attempted (env : Env) (t : Int) (key : List Char)
    (code : Option Int) (st : ProcState) :
    (publishCommit env t key code st).2 = ItemOutcome.published ∨
      (publishCommit env t key code st).2 = ItemOutcome.publishFailed := by
  unfold publishCommit
  cases code with
  | none => exact Or.inr rfl
  | some c =>
    dsimp only
    split_ifs <;> first | exact Or.inl rfl | exact Or.inr rfl

/-- One loop iteration never decreases the feed watermark. -/
theorem processItem_lastRun_mono (env : Env) (post : Item → Option Int)
    (st st' : ProcState) (it : Item) (out : ItemOutcome)
    (h : processItem env post st it = some (st', out)) :
    st.lastRun ≤ st'.lastRun := by
  simp only [processItem] at h
  repeat' split at h
  all_goals simp only [Option.some.injEq, Prod.mk.injEq, reduceCtorEq] at h
  all_goals try (obtain ⟨h1, -⟩ := h; exact h1 ▸ le_refl _)
  all_goals
    have h1 := congrArg (fun p => p.1.lastRun) h
    dsimp only at h1
    rw [← h1]
    exact publishCommit_lastRun_mono _ _ _ _ _

/-- The whole loop never decreases the feed watermark. -/
theorem runItems_lastRun_mono (env : Env) (post : Item → Option Int) :
    ∀ (items : List Item) (st stf : ProcState) (tr : List (Int × ItemOutcome)),
      runItems env post st items = some (stf, tr) → st.lastRun ≤ stf.lastRun := by
  intro items
  induction items with
  | nil =>
    intro st stf tr h
    simp only [runItems, Option.some.injEq, Prod.mk.injEq] at h
    obtain ⟨h1, -⟩ := h
    exact h1 ▸ le_refl _
  | cons it rest ih =>
    intro st stf tr h
    simp only [runItems] at h
    cases hp : processItem env post st it with
    | none => rw [hp] at h; exact absurd h (by simp)
    | some p =>
      obtain ⟨st', out⟩ := p
      rw [hp] at h
      dsimp only at h
      cases hr : runItems env post st' rest with
      | none => rw [hr] at h; exact absurd h (by simp)
      | some q =>
        obtain ⟨stf', tr'⟩ := q
        rw [hr] at h
        simp only [Option.some.injEq, Prod.mk.injEq] at h
        obtain ⟨h1, -⟩ := h
        exact h1 ▸ le_trans (processItem_lastRun_mono _ _ _ _ _ _ hp) (ih st' stf' tr' hr)

/-- One `getFeed` call never decreases the feed watermark (a parse
error leaves it untouched). -/
theorem getFeedRun_lastRun_mono (env : Env) (post : Item → Option Int)
    (fetched : Option (List Item)) (st stf : ProcState)
    (tr : List (Int × ItemOutcome))
    (h : getFeedRun env post fetched st = some (stf, tr)) :
    st.lastRun ≤ stf.lastRun := by
  unfold getFeedRun at h
  cases fetched with
  | none =>
    simp only [Option.some.injEq, Prod.mk.injEq] at h
    obtain ⟨h1, -⟩ := h
    exact h1 ▸ le_refl _
  | some items => exact runItems_lastRun_mono env post _ st stf tr h

/-- The per-feed body of `Start` never decreases the feed watermark. -/
theorem startFeed_lastRun_mono (env : Env) (post : Item → Option Int)
    (fetched : Option (List Item)) (feedUrl token : List Char)
    (sched sched' : SchedState) (st stf : ProcState)
    (tr : List (Int × ItemOutcome))
    (h : startFeed env post fetched feedUrl token sched st = some (sched', stf, tr)) :
    st.lastRun ≤ stf.lastRun := by
  unfold startFeed at h
  split_ifs at h
  · rcases hd : schedTick sched with ⟨s1, due⟩
    rw [hd] at h
    dsimp only at h
    cases due with
    | true =>
      rw [if_pos rfl] at h
      cases hg : getFeedRun env post fetched st with
      | none => rw [hg] at h; exact absurd h (by simp)
      | some q =>
        obtain ⟨st', tr'⟩ := q
        rw [hg] at h
        simp only [Option.some.injEq, Prod.mk.injEq] at h
        obtain ⟨-, h2, -⟩ := h
        exact h2 ▸ getFeedRun_lastRun_mono env post fetched st st' tr' hg
    | false =>
      rw [if_neg (by simp)] at h
      simp only [Option.some.injEq, Prod.mk.injEq] at h
      obtain ⟨-, h2, -⟩ := h
      exact h2 ▸ le_refl _
  · simp only [Option.some.injEq, Prod.mk.injEq] at h
    obtain ⟨-, h2, -⟩ := h
    exact h2 ▸ le_refl _

/-- The publish commit reports success exactly on status 200. -/
theorem publishCommit_published_iff (env : Env) (t : Int) (key : List Char)
    (code : Option Int) (st : ProcState) :
    (publishCommit env t key code st).2 = ItemOutcome.published ↔ code = some 200 := by
  unfold publishCommit
  cases code with
  | none => simp
  | some c =>
    dsimp only
    split_ifs with hc <;> simp [hc]

/-- A failed publish leaves the state untouched. -/
theorem publishCommit_failed_fst (env : Env) (t : Int) (key : List Char)
    (code : Option Int) (st : ProcState)
    (h : (publishCommit env t key code st).2 = ItemOutcome.publishFailed) :
    (publishCommit env t key code st).1 = st := by
  unfold publishCommit at h ⊢
  cases code with
  | none => rfl
  | some c =>
    dsimp only at h ⊢
    split_ifs at h ⊢
    all_goals rfl

/-- A successful publish commits exactly the success record. -/
theorem publishCommit_published_fst (env : Env) (t : Int) (key : List Char)
    (code : Option Int) (st : ProcState)
    (h : (publishCommit env t key code st).2 = ItemOutcome.published) :
    (publishCommit env t key code st).1 = successCommit env t key st := by
  unfold publishCommit at h ⊢
  cases code with
  | none => simp at h
  | some c =>
    dsimp only at h ⊢
    split_ifs at h ⊢
    all_goals rfl

/-- Full case analysis of the publish commit: failure leaves the state
untouched and means the status was not 200; success means the status
was exactly 200 and the state is the success record. -/
theorem publishCommit_cases (env : Env) (t : Int) (key : List Char)
    (code : Option Int) (st st' : ProcState) (out : ItemOutcome)
    (h : publishCommit env t key code st = (st', out)) :
    (out = ItemOutcome.publishFailed → st' = st ∧ code ≠ some 200) ∧
    (out = ItemOutcome.published → code = some 200 ∧
      st' = successCommit env t key st) := by
  unfold publishCommit at h
  cases code with
  | none =>
    rw [Prod.mk.injEq] at h
    obtain ⟨h1, h2⟩ := h
    subst h1
    subst h2
    exact ⟨fun _ => ⟨rfl, fun hx => Option.noConfusion hx⟩,
      fun hx => ItemOutcome.noConfusion hx⟩
  | some c =>
    dsimp only at h
    by_cases hc : c = 200
    · rw [if_pos hc] at h
      rw [Prod.mk.injEq] at h
      obtain ⟨h1, h2⟩ := h
      subst h1
      subst h2
      exact ⟨fun hx => ItemOutcome.noConfusion hx,
        fun _ => ⟨hc ▸ rfl, rfl⟩⟩
    · rw [if_neg hc] at h
      rw [Prod.mk.injEq] at h
      obtain ⟨h1, h2⟩ := h
      subst h1
      subst h2
      exact ⟨fun _ => ⟨rfl, fun hx => hc (Option.some_inj.mp hx)⟩,
        fun hx => ItemOutcome.noConfusion hx⟩

/-- Fully evaluated success path of one loop iteration: with no cache,
a well-formed feed name, production mode, an item inside the look-back
horizon, not future-dated, strictly newer than the watermark, a
rendering that completes, and a 200 response, the iteration publishes
and commits. -/
theorem processItem_success (env : Env) (post : Item → Option Int)
    (st : ProcState) (it : Item)
    (hcache : env.cacheAvailable = false)
    (hname : 2 ≤ env.name.length)
    (hdebug : env.debugMode = false)
    (hhor : env.nowUnix - 43200 ≤ effTime env.feedType it)
    (hcap : effTime env.feedType it ≤ env.nowUnix)
    (hnew : st.lastRun < effTime env.feedType it)
    (hrender : renderStatus env.limit (env.unescape it.title)
        (makeHashtags it.categories it.link env.reTag env.pfx) it.link
        (env.unescape (trimSpace (env.sanitize
          (if it.content ≠ [] then it.content else it.description)))) env.reRep ≠ none)
    (hpost : post it = some 200) :
    processItem env post st it =
      some (successCommit env (effTime env.feedType it) (idemKey env it) st,
        ItemOutcome.published) := by
  have h1 : ¬ effTime env.feedType it < env.nowUnix - 43200 := by omega
  have h2 : ¬ effTime env.feedType it > env.nowUnix := by omega
  have h3 : ¬ effTime env.feedType it < st.lastRun := by omega
  have h4 : ¬ env.name.length < 2 := by omega
  have h6 : ¬ effTime env.feedType it ≤ st.lastRun := by omega
  obtain ⟨m, hm⟩ := Option.ne_none_iff_exists'.mp hrender
  simp only [processItem, h1, if_false, h2, h3, h4, hcache, hdebug, h6,
    Bool.false_eq_true, false_and, and_false, not_false_eq_true, true_and, if_true, hm]
  unfold publishCommit
  rw [hpost]
  simp

/-! ## Claim C1 — dedup watermark tier (corrected) -/

/-- C1 (counterexample): with the cache available and empty, an item
whose capped effective timestamp is strictly below `f.LastRun` is
nevertheless skipped by the watermark comparison, even though its
idempotency key is not in the cache: the skip decision for such an item
is not made by the cache, contrary to the claim. -/
theorem claim1_counterexample :
    processItem envCache (fun _ => some 200) stBase (mkItem 998000) =
        some (stBase, ItemOutcome.skipped) ∧
      idemKey envCache (mkItem 998000) ∉ stBase.cacheKeys := by
  constructor
  · decide
  · decide

/-- C1 (amended): an item whose capped effective timestamp is at most
`f.LastRun` is skipped when no cache is available; when a cache is
available, only items with capped timestamp strictly below `f.LastRun`
are skipped by the watermark, and for every item at or above the
watermark (and inside the look-back horizon, with a well-formed feed
name) the skip decision is exactly the cache-existence check of the
item's idempotency key. -/
theorem claim1_amended (env : Env) (post : Item → Option Int) (st : ProcState)
    (it : Item) :
    (env.cacheAvailable = false → 2 ≤ env.name.length →
      cappedTime env it ≤ st.lastRun →
      processItem env post st it = some (st, ItemOutcome.skipped)) ∧
    (env.cacheAvailable = true →
      cappedTime env it < st.lastRun →
      processItem env post st it = some (st, ItemOutcome.skipped)) ∧
    (env.cacheAvailable = true → 2 ≤ env.name.length →
      env.nowUnix - 43200 ≤ effTime env.feedType it →
      st.lastRun ≤ cappedTime env it →
      (processItem env post st it = some (st, ItemOutcome.skipped) ↔
        idemKey env it ∈ st.cacheKeys)) := by
  refine ⟨?_, ?_, ?_⟩
  · intro hcache hname hle
    rcases lt_or_eq_of_le hle with hlt | heq
    · exact processItem_skip_of_capped_lt env post st it hlt
    · unfold cappedTime at heq
      have h4 : ¬ env.name.length < 2 := by omega
      by_cases h0 : effTime env.feedType it < env.nowUnix - 43200
      · simp [processItem, h0]
      · simp [processItem, h0, h4, hcache, heq]
  · intro _ hlt
    exact processItem_skip_of_capped_lt env post st it hlt
  · intro hcache hname hhor hge
    unfold cappedTime at hge
    have h0 : ¬ effTime env.feedType it < env.nowUnix - 43200 := by omega
    have h3 : ¬ (if effTime env.feedType it > env.nowUnix then env.nowUnix
        else effTime env.feedType it) < st.lastRun := by omega
    have h4 : ¬ env.name.length < 2 := by omega
    constructor
    · intro hskip
      by_contra hmem
      simp only [processItem, h0, if_false, h3, h4, hcache, hmem, and_false,
        true_and, false_and, not_false_eq_true, and_true, if_true,
        not_true_eq_false, if_false] at hskip
      rcases hr : renderStatus env.limit (env.unescape it.title)
          (makeHashtags it.categories it.link env.reTag env.pfx) it.link
          (env.unescape (trimSpace (env.sanitize
            (if it.content ≠ [] then it.content else it.description)))) env.reRep with
        - | m
      · rw [hr] at hskip
        exact absurd hskip (by simp)
      · rw [hr] at hskip
        dsimp only at hskip
        by_cases hd : env.debugMode = true
        · rw [if_pos hd] at hskip
          simp at hskip
        · rw [if_neg hd] at hskip
          have h2 := congrArg Prod.snd (Option.some_inj.mp hskip)
          rcases publishCommit_snd_attempted env
              (if effTime env.feedType it > env.nowUnix then env.nowUnix
                else effTime env.feedType it)
              (idemKey env it) (post it) st with hp | hp <;>
            rw [hp] at h2 <;> simp at h2
    · intro hmem
      simp [processItem, h0, h3, h4, hcache, hmem]

/-- C1 (witness): the amended dedup statement evaluated at a boundary
item without a cache, and at a cache hit. -/
theorem claim1_witness :
    (envNoCache.cacheAvailable = false ∧ 2 ≤ envNoCache.name.length ∧
      cappedTime envNoCache (mkItem 999000) ≤ stBase.lastRun ∧
      processItem envNoCache (fun _ => some 200) stBase (mkItem 999000) =
        some (stBase, ItemOutcome.skipped)) ∧
    (envCache.cacheAvailable = true ∧ 2 ≤ envCache.name.length ∧
      envCache.nowUnix - 43200 ≤ effTime envCache.feedType (mkItem 999500) ∧
      stKeyed.lastRun ≤ cappedTime envCache (mkItem 999500) ∧
      processItem envCache (fun _ => some 200) stKeyed (mkItem 999500) =
        some (stKeyed, ItemOutcome.skipped)) :=
  ⟨⟨rfl, by decide, by decide,
      (claim1_amended envNoCache (fun _ => some 200) stBase (mkItem 999000)).1
        rfl (by decide) (by decide)⟩,
    ⟨rfl, by decide, by decide, by decide,
      ((claim1_amended envCache (fun _ => some 200) stKeyed (mkItem 999500)).2.2
          rfl (by decide) (by decide) (by decide)).mpr (by decide)⟩⟩

/-! ## Claim C2 — watermark monotonicity (confirmed) -/

/-- C2: no step of the processing cycle — the per-item loop iteration
(including the success commit), a whole `getFeed` call, or the per-feed
body of `Start` — ever assigns `f.LastRun` a value smaller than its
current value. -/
theorem claim2_monotone (env : Env) (post : Item → Option Int)
    (fetched : Option (List Item)) (feedUrl token : List Char)
    (sched sched' : SchedState) (st st' stf stg : ProcState) (it : Item)
    (out : ItemOutcome) (tr tr' : List (Int × ItemOutcome)) :
    (processItem env post st it = some (st', out) → st.lastRun ≤ st'.lastRun) ∧
    (getFeedRun env post fetched st = some (stf, tr) → st.lastRun ≤ stf.lastRun) ∧
    (startFeed env post fetched feedUrl token sched st = some (sched', stg, tr') →
      st.lastRun ≤ stg.lastRun) :=
  ⟨processItem_lastRun_mono env post st st' it out,
    getFeedRun_lastRun_mono env post fetched st stf tr,
    startFeed_lastRun_mono env post fetched feedUrl token sched sched' st stg tr'⟩

/-- C2 (witness): monotonicity evaluated on a successful publish, a
parse-error cycle, and a due `Start` step. -/
theorem claim2_witness :
    (processItem envNoCache (fun _ => some 200) stBase (mkItem 999500) =
        some (stSucc, ItemOutcome.published) ∧
      stBase.lastRun ≤ stSucc.lastRun) ∧
    (getFeedRun envNoCache (fun _ => some 200) none stBase = some (stBase, []) ∧
      stBase.lastRun ≤ stBase.lastRun) ∧
    (startFeed envNoCache (fun _ => some 200) none ['u'] ['k']
        { progress := 0, interval := 1 } stBase =
        some ({ progress := 0, interval := 1 }, stBase, []) ∧
      stBase.lastRun ≤ stBase.lastRun) :=
  ⟨⟨by decide,
      (claim2_monotone envNoCache (fun _ => some 200) none ['u'] ['k']
          { progress := 0, interval := 1 } { progress := 0, interval := 1 }
          stBase stSucc stBase stBase (mkItem 999500) ItemOutcome.published [] []).1
        (by decide)⟩,
    ⟨by decide,
      (claim2_monotone envNoCache (fun _ => some 200) none ['u'] ['k']
          { progress := 0, interval := 1 } { progress := 0, interval := 1 }
          stBase stSucc stBase stBase (mkItem 999500) ItemOutcome.published [] []).2.1
        (by decide)⟩,
    ⟨by decide,
      (claim2_monotone envNoCache (fun _ => some 200) none ['u'] ['k']
          { progress := 0, interval := 1 } { progress := 0, interval := 1 }
          stBase stSucc stBase stBase (mkItem 999500) ItemOutcome.published [] []).2.2
        (by decide)⟩⟩

/-! ## Claim C3 — publish success commit (corrected) -/

/-- C3 (counterexample): the endpoint's "created" status (HTTP 201) is
treated as a failure — the state is unchanged — while status 200 (OK)
is the one that commits: success is not defined by the "created"
status. -/
theorem claim3_counterexample :
    processItem envNoCache (fun _ => some 201) stBase (mkItem 999500) =
        some (stBase, ItemOutcome.publishFailed) ∧
      processItem envNoCache (fun _ => some 200) stBase (mkItem 999500) =
        some (stSucc, ItemOutcome.published) :=
  ⟨by decide, by decide⟩

/-- C3 (amended): a publish attempt counts as success exactly when the
endpoint returns status 200 (OK); on any other status or on a transport
error, the state is unchanged (the item is not marked delivered, the
post counter is not incremented, `f.LastRun` is not advanced), and on
success the state is exactly the success commit (counter incremented,
key cached when a cache is available, watermark advanced to the capped
timestamp when below it). -/
theorem claim3_amended (env : Env) (post : Item → Option Int) (st st' : ProcState)
    (it : Item) (out : ItemOutcome)
    (h : processItem env post st it = some (st', out)) :
    (out = ItemOutcome.publishFailed → st' = st ∧ post it ≠ some 200) ∧
    (out = ItemOutcome.published → post it = some 200 ∧
      st' = successCommit env (cappedTime env it) (idemKey env it) st) := by
  simp only [processItem] at h
  repeat' split at h
  all_goals try exact Option.noConfusion h
  all_goals try
    (rw [Option.some_inj, Prod.mk.injEq] at h
     obtain ⟨h1, h2⟩ := h
     subst h1
     subst h2
     exact ⟨fun hx => ItemOutcome.noConfusion hx, fun hx => ItemOutcome.noConfusion hx⟩)
  all_goals
    have hq := Option.some_inj.mp h
    have hc := publishCommit_cases env _ (idemKey env it) (post it) st st' out hq
    refine ⟨hc.1, fun hout => ⟨(hc.2 hout).1, ?_⟩⟩
    rw [(hc.2 hout).2]
    unfold cappedTime
    split_ifs
    all_goals rfl

/-- C3 (witness): the amended commit statement evaluated at a failed
attempt (status 201). -/
theorem claim3_witness :
    processItem envNoCache (fun _ => some 201) stBase (mkItem 999500) =
        some (stBase, ItemOutcome.publishFailed) ∧
      (stBase = stBase ∧
        (fun _ => (some 201 : Option Int)) (mkItem 999500) ≠ some 200) :=
  ⟨by decide,
    (claim3_amended envNoCache (fun _ => some 201) stBase stBase (mkItem 999500)
        ItemOutcome.publishFailed (by decide)).1 rfl⟩

/-! ## Claim C4 — truncation boundary (corrected) -/

/-- The boundary backtrack never lengthens the sliced body. -/
theorem truncStep2_length (d1 d3 : List Char) (h : truncStep2 d1 = some d3) :
    d3.length ≤ d1.length := by
  simp only [truncStep2] at h
  by_cases hn : lastIndexAny d1 boundaryChars > 0
  · rw [if_pos hn] at h
    cases h2 : goSlice d1 (lastIndexAny d1 boundaryChars + 1) with
    | none => rw [h2] at h; exact Option.noConfusion h
    | some d2 =>
      rw [h2] at h
      dsimp only at h
      cases h3 : goIndex d2 (lastIndexAny d1 boundaryChars) with
      | none => rw [h3] at h; exact Option.noConfusion h
      | some c =>
        rw [h3] at h
        dsimp only at h
        by_cases hc : c = ' '
        · rw [if_pos hc] at h
          exact le_trans (goSlice_length_le h).1 (goSlice_length_le h2).1
        · rw [if_neg hc] at h
          rw [Option.some_inj] at h
          exact h ▸ (goSlice_length_le h2).1
  · rw [if_neg hn] at h
    rw [Option.some_inj] at h
    exact h ▸ le_refl _

/-- Whenever the final truncation step completes, its result is some
prefix of the body followed by the `" [...]"` marker. -/
theorem truncStep3_shape (d3 r : List Char) (h : truncStep3 d3 = some r) :
    ∃ core, r = core ++ markerChars ∧ core.length ≤ d3.length := by
  unfold truncStep3 at h
  cases h1 : goIndex d3 ((d3.length : Int) - 2) with
  | none => rw [h1] at h; exact Option.noConfusion h
  | some c2 =>
    rw [h1] at h
    dsimp only at h
    by_cases hc : c2 = ' '
    · rw [if_pos hc] at h
      cases h2 : goSlice d3 ((d3.length : Int) - 2) with
      | none => rw [h2] at h; exact Option.noConfusion h
      | some d4 =>
        rw [h2] at h
        dsimp only at h
        exact ⟨d4, (Option.some_inj.mp h).symm, (goSlice_length_le h2).1⟩
    · rw [if_neg hc] at h
      dsimp only at h
      exact ⟨d3, (Option.some_inj.mp h).symm, le_refl _⟩

/-- Whenever the over-length branch of the truncation completes, the
result is a body of at most `limit - l - 11` characters followed by the
marker. -/
theorem truncate_shape (limit l : Int) (desc r : List Char)
    (hover : l + (desc.length : Int) > limit)
    (h : truncateDescription limit l desc = some r) :
    ∃ core, r = core ++ markerChars ∧ (core.length : Int) ≤ limit - l - 11 := by
  unfold truncateDescription at h
  rw [if_pos hover] at h
  cases h1 : goSlice desc (limit - l - 11) with
  | none => rw [h1] at h; exact Option.noConfusion h
  | some d1 =>
    rw [h1] at h
    dsimp only at h
    cases h2 : truncStep2 d1 with
    | none => rw [h2] at h; exact Option.noConfusion h
    | some d3 =>
      rw [h2] at h
      dsimp only at h
      obtain ⟨core, hr, hlen⟩ := truncStep3_shape d3 r h
      have hb1 := (goSlice_length_le h1).2
      have hb2 := truncStep2_length d1 d3 h2
      exact ⟨core, hr, by omega⟩

/-- C4 (amended): with `characterLimit = 50`, a 5-character title, no
hashtags, a 20-character link and a 100-character body, whenever the
rendering completes the status text has length at most 50, and its
body portion ends with the truncation marker `" [...]"` — followed by
the blank line and the link, which is what the whole text ends with. -/
theorem claim4_amended (title link desc m : List Char)
    (ht : title.length = 5) (hl : link.length = 20) (hd : desc.length = 100)
    (hm : renderStatus 50 title [] link desc none = some m) :
    m.length ≤ 50 ∧
      ∃ core, m = title ++ "\n\n".toList ++ core ++ " [...]\n\n".toList ++ link := by
  unfold renderStatus at hm
  cases h1 : truncateDescription 50
      ((title.length : Int) + (([] : List Char).length : Int) + (link.length : Int)) desc with
  | none => rw [h1] at hm; exact Option.noConfusion hm
  | some d =>
    rw [h1] at hm
    dsimp only at hm
    have hover : ((title.length : Int) + (([] : List Char).length : Int) + (link.length : Int))
        + (desc.length : Int) > 50 := by
      simp only [ht, hl, hd, List.length_nil]
      omega
    obtain ⟨core, hdr, hcore⟩ := truncate_shape _ _ _ _ hover h1
    subst hdr
    have hmar : markerChars ≠ [] := by decide
    have hdne : core ++ markerChars ≠ [] := fun hnil => hmar (List.append_eq_nil.mp hnil).2
    rw [Option.some_inj] at hm
    unfold composeStatus at hm
    rw [if_pos hdne, if_neg (not_not_intro rfl)] at hm
    subst hm
    have hm6 : markerChars.length = 6 := rfl
    have h2n : ("\n\n".toList).length = 2 := rfl
    have hsplit : " [...]\n\n".toList = markerChars ++ "\n\n".toList := rfl
    constructor
    · simp only [List.length_append, List.length_nil]
      omega
    · exact ⟨core, by simp only [hsplit, List.append_assoc, List.append_nil,
        List.nil_append]⟩

/-- C4 (counterexample): on a concrete instance of the claimed inputs
(5-character title, no hashtags, 20-character link, 100-character body
with word boundaries) the rendered text does NOT end with the
truncation marker — it ends with the link; the marker sits before the
final blank line. -/
theorem claim4_counterexample :
    renderStatus 50 title4 [] link4 desc4 none = some status4 ∧
      status4.drop (status4.length - 6) ≠ markerChars := by
  constructor
  · decide
  · decide

/-- C4 (witness): the amended truncation-boundary statement evaluated
on the concrete fixture. -/
theorem claim4_witness :
    title4.length = 5 ∧ link4.length = 20 ∧ desc4.length = 100 ∧
      renderStatus 50 title4 [] link4 desc4 none = some status4 ∧
      (status4.length ≤ 50 ∧
        ∃ core, status4 = title4 ++ "\n\n".toList ++ core ++ " [...]\n\n".toList ++ link4) :=
  ⟨by decide, by decide, by decide, by decide,
    claim4_amended title4 link4 desc4 status4 (by decide) (by decide) (by decide)
      (by decide)⟩

/-! ## Claim C5 — over-length edge case (code bug) -/

/-- C5 (failing input): when title+hashtags+link alone exceed the
character limit (a 60-character title against limit 50, with a
non-empty body), the slice `description[:n]` is evaluated with
`n = 50 - 60 - 11 = -21 < 0`: rendering panics (`none`) instead of
producing an over-length result. -/
theorem claim5_truncation_panic :
    renderStatus 50 (List.replicate 60 'a') [] [] ['x'] none = none ∧
      goSlice ['x'] (50 - 60 - 11) = none := by
  constructor
  · decide
  · decide

/-! ## Claim C6 — oldest-first ordering (confirmed) -/

/-- One fully evaluated successful iteration in the ordering fixture:
from a state `⟨lr, cnt, lr, []⟩` an item at time `t` with
`lr < t ≤ T` inside the horizon publishes and moves the watermark and
`lastMonit` to `t`. -/
theorem step6 (T lr cnt t : Int) (hnew : lr < t) (hhor : T - 43200 ≤ t)
    (hcap : t ≤ T) :
    processItem (env6 T) (fun _ => some 200) ⟨lr, cnt, lr, []⟩ (mkItem t) =
      some (⟨t, wrap64 (cnt + 1), t, []⟩, ItemOutcome.published) := by
  have heff : effTime (env6 T).feedType (mkItem t) = t := rfl
  have h := processItem_success (env6 T) (fun _ => some 200) ⟨lr, cnt, lr, []⟩
    (mkItem t) rfl Nat.le.refl rfl
    (by rw [heff]; exact hhor) (by rw [heff]; exact hcap) (by rw [heff]; exact hnew)
    (fun hx => Option.noConfusion hx) rfl
  rw [h]
  simp only [successCommit, heff]
  rw [if_pos hnew, if_pos hnew]
  rfl

/-- C6: for a feed with watermark `T - 4` and fetched items timestamped
`[T-3, T-1, T-2]`, the cycle evaluates them in ascending order
`T-3, T-2, T-1`, and when every publish succeeds the watermark ends at
`T - 1`. -/
theorem claim6_ordering (T : Int) :
    getFeedRun (env6 T) (fun _ => some 200)
        (some [mkItem (T - 3), mkItem (T - 1), mkItem (T - 2)]) (st6 T) =
      some (st6c T,
        [(T - 3, ItemOutcome.published), (T - 2, ItemOutcome.published),
          (T - 1, ItemOutcome.published)]) := by
  have heff : ∀ t : Int, effTime (env6 T).feedType (mkItem t) = t := fun t => rfl
  have hsort : (sortDesc (effTime (env6 T).feedType)
      [mkItem (T - 3), mkItem (T - 1), mkItem (T - 2)]).reverse =
      [mkItem (T - 3), mkItem (T - 2), mkItem (T - 1)] := by
    simp only [sortDesc, insertDesc, heff]
    rw [if_pos (show T - 1 > T - 2 by omega)]
    simp only [insertDesc, heff]
    rw [if_neg (show ¬ T - 3 > T - 1 by omega), if_neg (show ¬ T - 3 > T - 2 by omega)]
    rfl
  have h1 := step6 T (T - 4) 0 (T - 3) (by omega) (by omega) (by omega)
  have h2 := step6 T (T - 3) (wrap64 (0 + 1)) (T - 2) (by omega) (by omega) (by omega)
  have h3 := step6 T (T - 2) (wrap64 (wrap64 (0 + 1) + 1)) (T - 1)
    (by omega) (by omega) (by omega)
  have hw3 : wrap64 (wrap64 (wrap64 (0 + 1) + 1) + 1) = 3 := by decide
  show runItems (env6 T) (fun _ => some 200) (st6 T)
      ((sortDesc (effTime (env6 T).feedType)
        [mkItem (T - 3), mkItem (T - 1), mkItem (T - 2)]).reverse) = _
  rw [hsort]
  simp only [runItems, st6]
  rw [h1]
  simp only [runItems]
  rw [h2]
  simp only [runItems]
  rw [h3]
  simp only [runItems, heff, hw3, st6c]

/-! ## Claims C7/C9/C10 — initialization (`setDefaultValues`) -/

/-- The interval after initialization: defaulted to 10 exactly when the
configured value is 0, kept unchanged otherwise. -/
theorem setDefaultValues_interval (lm : Int) (host : List Char → Option (List Char))
    (f : FeedConfig) :
    (setDefaultValues lm host f).interval =
      if f.interval = 0 then 10 else f.interval := by
  by_cases h1 : f.lastRun = 0 <;> by_cases h2 : f.interval = 0 <;>
    simp [setDefaultValues, h1, h2] <;> (try split_ifs) <;> rfl

/-- The watermark after initialization: the defaulted value plus the
wrapped `60 * Interval` bump. -/
theorem setDefaultValues_lastRun (lm : Int) (host : List Char → Option (List Char))
    (f : FeedConfig) :
    (setDefaultValues lm host f).lastRun =
      wrap64 ((if f.lastRun = 0 then lm else f.lastRun) +
        wrap64 (60 * (if f.interval = 0 then 10 else f.interval))) := by
  by_cases h1 : f.lastRun = 0 <;> by_cases h2 : f.interval = 0 <;>
    simp [setDefaultValues, h1, h2] <;> (try split_ifs) <;> rfl

/-- The feed name after initialization of a nameless feed whose URL
yields no hostname. -/
theorem setDefaultValues_name_empty (lm : Int) (host : List Char → Option (List Char))
    (f : FeedConfig) (hn : f.name = [])
    (hh : host f.feedUrl = none ∨ host f.feedUrl = some []) :
    (setDefaultValues lm host f).name = [] := by
  by_cases h1 : f.lastRun = 0 <;> by_cases h2 : f.interval = 0 <;>
    rcases hh with hh | hh <;>
    simp [setDefaultValues, h1, h2, hn, hh, sanitizeFeedName] <;>
    (try split_ifs) <;> simp [hh]

/-- C7 (counterexample): a feed configured with interval `-5` keeps the
negative interval after initialization — it is not normalized to the
default 10 and is not positive. -/
theorem claim7_counterexample :
    (setDefaultValues 0 (fun _ => none) fcNeg).interval = -5 ∧
      ¬ 0 < (setDefaultValues 0 (fun _ => none) fcNeg).interval := by
  constructor
  · decide
  · decide

/-- C7 (amended): initialization defaults the interval to 10 exactly
when the configured value is 0; a nonzero (in particular negative)
interval is kept unchanged, so the interval is positive after
initialization only for non-negative configured values; the scheduler
tick never changes the interval. -/
theorem claim7_amended (lm : Int) (host : List Char → Option (List Char))
    (f : FeedConfig) (s : SchedState) :
    (f.interval = 0 → (setDefaultValues lm host f).interval = 10) ∧
    (f.interval ≠ 0 → (setDefaultValues lm host f).interval = f.interval) ∧
    (0 ≤ f.interval → 0 < (setDefaultValues lm host f).interval) ∧
    (schedTick s).1.interval = s.interval := by
  have hi := setDefaultValues_interval lm host f
  refine ⟨fun h0 => by rw [hi, if_pos h0], fun h0 => by rw [hi, if_neg h0],
    fun h0 => ?_, ?_⟩
  · rw [hi]
    split_ifs with h <;> omega
  · unfold schedTick
    dsimp only
    split_ifs <;> rfl

/-- C7 (witness): the amended interval statement evaluated on an unset
interval, a negative interval, and a one-tick scheduler. -/
theorem claim7_witness :
    (fcZero.interval = 0 ∧ (setDefaultValues 0 (fun _ => none) fcZero).interval = 10) ∧
    (fcNeg.interval ≠ 0 ∧
      (setDefaultValues 0 (fun _ => none) fcNeg).interval = fcNeg.interval) ∧
    (0 ≤ fcZero.interval ∧ 0 < (setDefaultValues 0 (fun _ => none) fcZero).interval) ∧
    (schedTick sched7).1.interval = sched7.interval :=
  ⟨⟨by decide, (claim7_amended 0 (fun _ => none) fcZero sched7).1 (by decide)⟩,
    ⟨by decide, (claim7_amended 0 (fun _ => none) fcNeg sched7).2.1 (by decide)⟩,
    ⟨by decide, (claim7_amended 0 (fun _ => none) fcZero sched7).2.2.1 (by decide)⟩,
    (claim7_amended 0 (fun _ => none) fcZero sched7).2.2.2⟩

/-! ## Claim C8 — hashtag derivation round-trip (confirmed) -/

/-- C8: categories `["Tech - News"]` with no prefix render as
`#TechNews`; categories `["Polska"]` with prefix `"PL"` render as
`#Polska #PLPolska`; categories `["PLPolska"]` with prefix `"PL"`
render as `#PLPolska` with no duplicate prefixed tag. -/
theorem claim8_hashtags :
    makeHashtags (some ["Tech - News".toList]) [] none [] = "#TechNews".toList ∧
      makeHashtags (some ["Polska".toList]) [] none "PL".toList =
        "#Polska #PLPolska".toList ∧
      makeHashtags (some ["PLPolska".toList]) [] none "PL".toList =
        "#PLPolska".toList := by
  refine ⟨?_, ?_, ?_⟩
  · decide
  · decide
  · decide

/-! ## Claim C9 — watermark bump at initialization (corrected) -/

/-- C9 (counterexample): for a feed with a negative configured interval
(`-5`) and persisted watermark 1000, initialization moves the watermark
backwards to 700 — it is not strictly ahead of the persisted value. -/
theorem claim9_counterexample :
    (setDefaultValues 0 (fun _ => none) fcNeg).lastRun = 700 ∧
      (setDefaultValues 0 (fun _ => none) fcNeg).lastRun < fcNeg.lastRun := by
  constructor
  · decide
  · decide

/-- C9 (amended): initialization adds `60 * Interval` (wrapped int64)
to the defaulted watermark; for a non-negative configured interval (in
the int64-representable range) the watermark ends strictly ahead of its
defaulted value by one full polling interval, and every item whose
capped timestamp falls strictly below the bumped watermark is skipped
by the watermark filter. -/
theorem claim9_amended (lm : Int) (host : List Char → Option (List Char))
    (f : FeedConfig) (env : Env) (post : Item → Option Int) (st : ProcState)
    (it : Item) :
    (0 ≤ f.interval → f.interval ≤ 2 ^ 20 →
      -(2 ^ 40) ≤ f.lastRun → f.lastRun ≤ 2 ^ 40 → -(2 ^ 40) ≤ lm → lm ≤ 2 ^ 40 →
      ((setDefaultValues lm host f).lastRun =
          (if f.lastRun = 0 then lm else f.lastRun) +
            60 * (if f.interval = 0 then 10 else f.interval) ∧
        (if f.lastRun = 0 then lm else f.lastRun) <
          (setDefaultValues lm host f).lastRun)) ∧
    (cappedTime env it < st.lastRun →
      processItem env post st it = some (st, ItemOutcome.skipped)) := by
  constructor
  · intro h1 h2 h3 h4 h5 h6
    rw [setDefaultValues_lastRun]
    rw [wrap64_eq_of_bounds (60 * (if f.interval = 0 then 10 else f.interval))
      (by split_ifs <;> omega) (by split_ifs <;> omega)]
    rw [wrap64_eq_of_bounds _ (by split_ifs <;> omega) (by split_ifs <;> omega)]
    exact ⟨rfl, by split_ifs <;> omega⟩
  · exact processItem_skip_of_capped_lt env post st it

/-- C9 (witness): the amended bump statement evaluated on a feed with
interval 10 and watermark 1000, and on an item inside the bumped
window. -/
theorem claim9_witness :
    (0 ≤ fcPos.interval ∧ fcPos.interval ≤ 2 ^ 20 ∧
      (setDefaultValues 0 (fun _ => none) fcPos).lastRun = 1000 + 60 * 10 ∧
      1000 < (setDefaultValues 0 (fun _ => none) fcPos).lastRun) ∧
    (cappedTime envNoCache (mkItem 998000) < stBase.lastRun ∧
      processItem envNoCache (fun _ => some 200) stBase (mkItem 998000) =
        some (stBase, ItemOutcome.skipped)) :=
  ⟨⟨by decide, by decide,
      ((claim9_amended 0 (fun _ => none) fcPos envNoCache (fun _ => some 200)
            stBase (mkItem 998000)).1 (by decide) (by decide) (by decide)
          (by decide) (by decide) (by decide)).1,
      ((claim9_amended 0 (fun _ => none) fcPos envNoCache (fun _ => some 200)
            stBase (mkItem 998000)).1 (by decide) (by decide) (by decide)
          (by decide) (by decide) (by decide)).2⟩,
    ⟨by decide,
      (claim9_amended 0 (fun _ => none) fcPos envNoCache (fun _ => some 200)
          stBase (mkItem 998000)).2 (by decide)⟩⟩

/-! ## Claim C10 — idempotency-key precondition (confirmed) -/

/-- C10: a feed whose name is empty after initialization (empty
configured name with an unparsable or hostless feed URL) stays empty,
and processing any item that passes the time filters with a name of
fewer than 2 bytes panics at the `f.Name[:2]` slice (`none`) instead of
skipping or publishing. -/
theorem claim10_short_name (lm : Int) (host : List Char → Option (List Char))
    (f : FeedConfig) (env : Env) (post : Item → Option Int) (st : ProcState)
    (it : Item) :
    (f.name = [] → host f.feedUrl = none ∨ host f.feedUrl = some [] →
      (setDefaultValues lm host f).name = []) ∧
    (env.name.length < 2 → env.nowUnix - 43200 ≤ effTime env.feedType it →
      st.lastRun ≤ cappedTime env it → processItem env post st it = none) := by
  constructor
  · intro hn hh
    exact setDefaultValues_name_empty lm host f hn hh
  · intro hname hhor hge
    unfold cappedTime at hge
    have h1 : ¬ effTime env.feedType it < env.nowUnix - 43200 := by omega
    have h3 : ¬ (if effTime env.feedType it > env.nowUnix then env.nowUnix
        else effTime env.feedType it) < st.lastRun := by omega
    simp only [processItem, h1, if_false, h3, hname, if_true]

/-- C10 (witness): the precondition statement evaluated on a nameless
feed with a hostless URL and a fresh item. -/
theorem claim10_witness :
    (fcNoName.name = [] ∧ (fun _ => (some [] : Option (List Char))) fcNoName.feedUrl = some [] ∧
      (setDefaultValues 0 (fun _ => some []) fcNoName).name = []) ∧
    (envShort.name.length < 2 ∧
      envShort.nowUnix - 43200 ≤ effTime envShort.feedType (mkItem 999500) ∧
      stBase.lastRun ≤ cappedTime envShort (mkItem 999500) ∧
      processItem envShort (fun _ => some 200) stBase (mkItem 999500) = none) :=
  ⟨⟨by decide, by decide,
      (claim10_short_name 0 (fun _ => some []) fcNoName envShort
          (fun _ => some 200) stBase (mkItem 999500)).1 (by decide)
        (Or.inr (by decide))⟩,
    ⟨by decide, by decide, by decide,
      (claim10_short_name 0 (fun _ => some []) fcNoName envShort
          (fun _ => some 200) stBase (mkItem 999500)).2 (by decide) (by decide)
        (by decide)⟩⟩

end Rss2Masto
